import Mathlib

/-!
Verification of the streaming `ReduceNode` operator
(`crates/polars-stream/src/nodes/reduce.rs`) and of `Series` construction
from Arrow chunks (`crates/polars-core/src/series/from.rs`).

The Rust code is shallowly embedded: reducers (`dyn GroupedReduction`),
columns and dataframes are modelled by small executable Lean structures,
and the operator's `update_state` / `spawn_sink` / `spawn_source` logic is
translated into pure functions over those structures.  Fallible Rust
operations (`PolarsResult`) become `Except`/`UResult` values; `.unwrap()`
on a failing value is modelled by the distinguished `panicked` outcome.
-/

set_option maxHeartbeats 1000000

namespace PolarsStream

/-- The three-valued readiness signal exchanged with the scheduler
(`PortState` in the engine). -/
inductive PortState
  | Ready
  | Blocked
  | Done
deriving DecidableEq, Repr

/-- Model of a single cell value inside a column: a null, an integer, or a
string.  This is the value universe over which the abstract reducers and
the cast model operate. -/
inductive RVal
  | null
  | int (n : Int)
  | str (s : String)
deriving DecidableEq, Repr

/-- Model of a Polars data type, large enough to exhibit both succeeding
and failing casts. -/
inductive Dtype
  | dtInt
  | dtStr
deriving DecidableEq, Repr

/-- One (name, declared type) entry of the output schema. -/
structure Field where
  name : String
  dtype : Dtype
deriving DecidableEq, Repr

/-- A materialized series: a named, typed list of values. -/
structure Series where
  name : String
  dtype : Dtype
  values : List RVal
deriving DecidableEq, Repr

/-- `Series::with_name`. -/
def Series.withName (s : Series) (n : String) : Series := { s with name := n }

/-- Model of casting one value to a target type.  Nulls cast to anything,
ints cast to ints and (via their decimal rendering) to strings; casting a
string to an int is refused — so `castVal (.str "abc") .dtInt = none` is a
genuine cast failure, as invalid casts are in the engine. -/
def castVal : RVal → Dtype → Option RVal
  | .null, _ => some .null
  | .int n, .dtInt => some (.int n)
  | .int n, .dtStr => some (.str (toString n))
  | .str s, .dtStr => some (.str s)
  | .str _, .dtInt => none

/-- `Series::cast`: cast every value; fail if any value fails to cast. -/
def Series.cast (s : Series) (dt : Dtype) : Option Series :=
  (s.values.mapM (castVal · dt)).map fun vs => { s with dtype := dt, values := vs }

/-- A column: either a plain series or a scalar (single-value, one-row)
column as produced by `ScalarColumn::unit_scalar_from_series`. -/
inductive Column
  | series (s : Series)
  | scalar (s : Series)
deriving DecidableEq, Repr

/-- The height (row count) a column contributes to a dataframe. -/
def Column.height : Column → Nat
  | .series s => s.values.length
  | .scalar _ => 1

/-- `ScalarColumn::unit_scalar_from_series`: wrap a length-1 series as a
single-row constant column (`Column::Scalar`). -/
def unitScalarFromSeries (s : Series) : Column := .scalar s

/-- A result batch is a list of columns. -/
abbrev DataFrame := List Column

/-- Modelled from the spec: output assembly — "construct a row batch from a
sequence of named/typed columns; fails if columns have mismatched lengths"
(`DataFrame::new` lives in polars-core's frame module, which is not among
the excerpted sources). -/
def DataFrame.new : List Column → Option DataFrame
  | [] => some []
  | c :: cs => if cs.all (fun c2 => c2.height = c.height) then some (c :: cs) else none

/-- Abstract model of a `Box<dyn GroupedReduction>` instance: its per-group
accumulator states (`groups`), together with the reduction's defining data —
the output type of `finalize`, the empty-group value `ident` used when a
group is allocated by `resize`, the per-value update function `upd`
(taking the current state, the new value, and the morsel sequence number
used as order key) and the cross-instance combine function `comb`.
`finalizeErr` models a reduction whose `finalize()` returns `Err`. -/
structure GReduction where
  dtype : Dtype
  ident : RVal
  upd : RVal → RVal → Nat → RVal
  comb : RVal → RVal → RVal
  groups : List RVal
  finalizeErr : Bool

/-- `GroupedReduction::new_empty`: a fresh instance of the same reduction
with zero groups. -/
def GReduction.newEmpty (r : GReduction) : GReduction := { r with groups := [] }

/-- `GroupedReduction::resize(n)`: keep the first `n` existing groups and
allocate any missing ones in the empty state. -/
def GReduction.resize (r : GReduction) (n : Nat) : GReduction :=
  { r with groups := r.groups.take n ++ List.replicate (n - r.groups.length) r.ident }

/-- `GroupedReduction::update_group(value, g, seq)`: fold one value into
group `g` using the morsel sequence number as order key. -/
def GReduction.updateGroup (r : GReduction) (v : RVal) (g : Nat) (seq : Nat) : GReduction :=
  { r with groups := r.groups.set g (r.upd (r.groups.getD g r.ident) v seq) }

/-- `GroupedReduction::combine_subset(other, [g1], [g2])`: merge group `g2`
of `other` into group `g1` of `self` via the combine operation. -/
def GReduction.combineSubset (r1 r2 : GReduction) (g1 g2 : Nat) : GReduction :=
  { r1 with groups := r1.groups.set g1 (r1.comb (r1.groups.getD g1 r1.ident) (r2.groups.getD g2 r2.ident)) }

/-- `GroupedReduction::finalize`: produce the accumulated groups as an
unnamed series of the reduction's output type, or fail. -/
def GReduction.finalize (r : GReduction) : Except String Series :=
  if r.finalizeErr then .error "reduction finalize failed"
  else .ok { name := "", dtype := r.dtype, values := r.groups }

/-- The cancellation handle attached to a morsel; `SourceToken::new()`
creates a fresh one. -/
inductive SourceToken
  | new
deriving DecidableEq, Repr

/-- A morsel: a data batch plus sequence number and source token.  The
batch type is a parameter: input morsels carry opaque batches, the output
morsel carries the result `DataFrame`. -/
structure Morsel (δ : Type) where
  df : δ
  seq : Nat
  sourceToken : SourceToken
deriving DecidableEq, Repr

/-- `ReduceState`: the node-private phase (`Sink`/`Source`/`Done`), with
selectors of an opaque type `σ`. -/
inductive ReduceState (σ : Type)
  | Sink (selectors : List σ) (reductions : List GReduction)
  | Source (df : Option DataFrame)
  | Done

/-- Outcome of a model computation that can also panic: `ok` models
`Ok`, `err` models a returned `Err`, and `panicked` models a Rust panic
(a failing `.unwrap()` or an `unreachable!()`). -/
inductive UResult (α : Type)
  | ok (a : α)
  | err (e : String)
  | panicked (m : String)
deriving DecidableEq, Repr

/-- The finalization loop of `ReduceNode::update_state` (reduce.rs:129-139):
walk the zipped (reducer, schema field) pairs in order; for each pair
resize the reducer to one group, call `finalize` (an `Err` is propagated by
`try_collect_vec`'s `?`), rename the finalized series to the field name,
cast it to the field's declared type (a failing cast panics: `.unwrap()`),
and wrap it as a single-row scalar column. -/
def finalizeColumns : List GReduction → List Field → UResult (List Column)
  | [], _ => .ok []
  | _ :: _, [] => .ok []
  | r :: rs, f :: fs =>
    match (r.resize 1).finalize with
    | .error e => .err e
    | .ok s =>
      match (s.withName f.name).cast f.dtype with
      | none => .panicked "cast unwrap"
      | some s2 =>
        match finalizeColumns rs fs with
        | .ok cols => .ok (unitScalarFromSeries s2 :: cols)
        | .err e => .err e
        | .panicked m => .panicked m

/-- The "State transitions" block of `ReduceNode::update_state`
(reduce.rs:121-150): the first matching rule wins — downstream `Done`
short-circuits to `Done`; a `Sink` whose upstream is `Done` finalizes into
`Source(Some(batch))`; a `Source` whose batch has been taken becomes
`Done`; otherwise nothing changes. -/
def transitionStep {σ : Type} (schema : List Field) (st : ReduceState σ) (recv send : PortState) :
    UResult (ReduceState σ) :=
  if send = .Done then
    .ok .Done
  else
    match st with
    | .Sink sels rs =>
      if recv = .Done then
        match finalizeColumns rs schema with
        | .ok cols =>
          match DataFrame.new cols with
          | some df => .ok (.Source (some df))
          | none => .panicked "DataFrame::new unwrap"
        | .err e => .err e
        | .panicked m => .panicked m
      else .ok (.Sink sels rs)
    | .Source none => .ok .Done
    | .Source (some df) => .ok (.Source (some df))
    | .Done => .ok .Done

/-- `ReduceNode::update_state` (reduce.rs:113-168) as a pure function: run
the state-transition block, then write back the port states determined by
the new state (the "Communicate our state" block, reduce.rs:152-166).
Returns the new state together with the written (recv, send) pair. -/
def updateState {σ : Type} (schema : List Field) (st : ReduceState σ) (recv send : PortState) :
    UResult (ReduceState σ × PortState × PortState) :=
  match transitionStep schema st recv send with
  | .ok st2 =>
    match st2 with
    | .Sink sels rs => .ok (.Sink sels rs, .Ready, .Blocked)
    | .Source df => .ok (.Source df, .Done, .Ready)
    | .Done => .ok (.Done, .Done, .Done)
  | .err e => .err e
  | .panicked m => .panicked m

/-- The port states per phase as the spec words them: "`Sink` → receive
`Ready`, send `Blocked` ... `Source` → receive `Done`, send `Ready`.
`Done` → both `Done`" — written from the spec, to be compared with what
`updateState` writes back. -/
def specPhasePorts {σ : Type} : ReduceState σ → PortState × PortState
  | .Sink _ _ => (.Ready, .Blocked)
  | .Source _ => (.Done, .Ready)
  | .Done => (.Done, .Done)

/-- The finalization pipeline as the spec words it: "for each (reducer,
output-field) pair, resize the reducer to exactly one group, finalize it
into a column, rename it to the field's name, cast it to the field's
declared type, and wrap it as a single-row constant column.  Assemble all
finalized columns into one result batch" — written from the spec, to be
compared with what `updateState` computes. -/
def specFinalizeBatch (rs : List GReduction) (schema : List Field) : Option DataFrame := do
  let cols ← (rs.zip schema).mapM fun p => do
    let s ← ((p.1.resize 1).finalize).toOption
    let s2 ← (s.withName p.2.name).cast p.2.dtype
    pure (unitScalarFromSeries s2)
  DataFrame.new cols

/-- The kind of task group `ReduceNode::spawn` creates. -/
inductive SpawnKind
  | sinkTasks
  | sourceTask
  | unreachableCode
deriving DecidableEq, Repr

/-- The dispatch of `ReduceNode::spawn` (reduce.rs:179-194): sink tasks in
`Sink`, the single source task in `Source`, and `unreachable!()` in `Done`
— the scheduler never calls `spawn` for a node both of whose ports are
`Done`, so no task is ever created in the `Done` state. -/
def spawnKind {σ : Type} : ReduceState σ → SpawnKind
  | .Sink _ _ => .sinkTasks
  | .Source _ => .sourceTask
  | .Done => .unreachableCode

/-- The fresh per-partition reducer set of `spawn_sink` (reduce.rs:54-61):
`new_empty()` followed by `resize(1)`, so each local reducer holds exactly
one group, in the empty state. -/
def GReduction.newLocal (d : GReduction) : GReduction := (d.newEmpty).resize 1

/-- One iteration of a partition task's receive loop (reduce.rs:64-71) on
the success path: for each (reducer, selector) pair evaluate the selector
on the morsel's batch (`eval`, modelling `StreamExpr::evaluate` — pure in
the batch per the spec's interface contract; the failure path is treated by
the `E`-suffixed model below) and fold the resulting value into group 0
with the morsel's sequence number as order key. -/
def sinkStep {σ δ : Type} (eval : σ → δ → RVal) (sels : List σ)
    (rs : List GReduction) (m : Morsel δ) : List GReduction :=
  (rs.zip sels).map fun p => p.1.updateGroup (eval p.2 m.df) 0 m.seq

/-- A whole partition task of `spawn_sink` (reduce.rs:53-74), success path:
start from fresh local reducers and run the receive loop over the morsels
this partition receives, in their arrival order. -/
def localSinkTask {σ δ : Type} (eval : σ → δ → RVal) (reductions : List GReduction)
    (sels : List σ) (ms : List (Morsel δ)) : List GReduction :=
  ms.foldl (sinkStep eval sels) (reductions.map GReduction.newLocal)

/-- One step of the coordinating merge task (reduce.rs:79-87), success
path: for each (node reducer, partition reducer) pair, resize the node
reducer to one group and combine the partition's group 0 into it. -/
def mergeStep (rs loc : List GReduction) : List GReduction :=
  (rs.zip loc).map fun p => (p.1.resize 1).combineSubset p.2 0 0

/-- The full sink phase of `ReduceNode::spawn_sink` (reduce.rs:42-91),
success path: every partition runs its local task on the morsels it
receives, then the coordinating task folds the partition results into the
node-level reducers sequentially, in fixed partition index order. -/
def sinkPhase {σ δ : Type} (eval : σ → δ → RVal) (reductions : List GReduction)
    (sels : List σ) (parts : List (List (Morsel δ))) : List GReduction :=
  (parts.map (localSinkTask eval reductions sels)).foldl mergeStep reductions

/-- Single-reducer view of `localSinkTask`: what one component of the
zipped reducer/selector vectors computes. -/
def localSinkTask1 {σ δ : Type} (eval : σ → δ → RVal) (r : GReduction) (sel : σ)
    (ms : List (Morsel δ)) : GReduction :=
  ms.foldl (fun a m => a.updateGroup (eval sel m.df) 0 m.seq) r.newLocal

/-- Single-reducer view of the whole sink phase. -/
def sinkPhase1 {σ δ : Type} (eval : σ → δ → RVal) (r : GReduction) (sel : σ)
    (parts : List (List (Morsel δ))) : GReduction :=
  (parts.map (localSinkTask1 eval r sel)).foldl
    (fun a loc => (a.resize 1).combineSubset loc 0 0) r

/-- A partition task of `spawn_sink` with the fallible operations kept
fallible (reduce.rs:63-74): selector evaluation (`evalE`, the `?` on
`selector.evaluate`) and the reducer update (`updE`, the `?` on
`reducer.update_group`) may fail, aborting the whole task with that
error. -/
def localSinkTaskE {σ δ : Type} (evalE : σ → δ → Except String RVal)
    (updE : GReduction → RVal → Nat → Except String GReduction)
    (reductions : List GReduction) (sels : List σ) (ms : List (Morsel δ)) :
    Except String (List GReduction) :=
  ms.foldlM
    (fun rs m =>
      (rs.zip sels).mapM fun p => do
        let input ← evalE p.2 m.df
        updE p.1 input m.seq)
    (reductions.map GReduction.newLocal)

/-- The coordinating merge task with fallible operations kept fallible
(reduce.rs:78-90): await each partition task in index order (`task.await?`
— a failed task aborts the coordinator with the first observed failure),
then combine the partition result into the node reducers
(`combE`, the `?` on `combine_subset`). -/
def mergeFoldE (combE : GReduction → GReduction → Except String GReduction)
    (reductions : List GReduction)
    (results : List (Except String (List GReduction))) :
    Except String (List GReduction) :=
  results.foldlM
    (fun rs tr => do
      let loc ← tr
      (rs.zip loc).mapM fun p => combE (p.1.resize 1) p.2)
    reductions

/-- The full sink phase with fallible operations kept fallible. -/
def sinkPhaseE {σ δ : Type} (evalE : σ → δ → Except String RVal)
    (updE : GReduction → RVal → Nat → Except String GReduction)
    (combE : GReduction → GReduction → Except String GReduction)
    (reductions : List GReduction) (sels : List σ)
    (parts : List (List (Morsel δ))) : Except String (List GReduction) :=
  mergeFoldE combE reductions (parts.map (localSinkTaskE evalE updE reductions sels))

/-- Outcome of a scheduling round as seen by the node. -/
inductive ScheduleOutcome (σ : Type)
  | continueWith (st : ReduceState σ)
  | aborted (e : String)

/-- Modelled from the spec: "any failure in any task ... causes the
coordinating/join logic to stop waiting and propagate the first observed
failure upward, and the scheduler treats it as fatal for the entire query"
(§7); the scheduler that reacts to a failed sink task is not part of the
excerpted sources.  On a task failure the query aborts: the node's state is
never advanced again, so it never reaches `Source` and never emits a
result batch; on success the node continues in its current state. -/
def afterSinkTasks {σ : Type} (st : ReduceState σ)
    (sinkResult : Except String (List GReduction)) : ScheduleOutcome σ :=
  match sinkResult with
  | .error e => .aborted e
  | .ok _ => .continueWith st

/-- `ReduceNode::spawn_source` (reduce.rs:93-105): take the held result
batch out of the node (`df.take().unwrap()` — a panic if nothing is held),
wrap it in one morsel with sequence number zero and a fresh source token,
and send it once.  Returns the new held value and the list of emitted
morsels. -/
def spawnSource (df : Option DataFrame) : UResult (Option DataFrame × List (Morsel DataFrame)) :=
  match df with
  | some d => .ok (none, [{ df := d, seq := 0, sourceToken := SourceToken.new }])
  | none => .panicked "Option unwrap"

/-- A concrete commutative, associative combine with `RVal.null` as
identity: ints add, two strings collapse, an int absorbs a string.  Used to
instantiate witness reductions. -/
def combW : RVal → RVal → RVal
  | .null, b => b
  | a, .null => a
  | .int x, .int y => .int (x + y)
  | .int x, .str _ => .int x
  | .str _, .int y => .int y
  | .str _, .str _ => .str ""

/-- A concrete sum-like witness reduction over `combW`. -/
def sumReducer : GReduction :=
  { dtype := .dtInt, ident := .null, upd := fun a v _ => combW a v,
    comb := combW, groups := [], finalizeErr := false }

/-- A witness reduction whose finalized value is a non-numeric string while
its schema field declares an integer type, so the finalization cast
fails. -/
def badCastReducer : GReduction :=
  { dtype := .dtStr, ident := .null, upd := fun a _ _ => a, comb := fun a _ => a,
    groups := [.str "abc"], finalizeErr := false }

/-- A witness reduction whose `finalize()` fails. -/
def errFinalizeReducer : GReduction :=
  { dtype := .dtInt, ident := .null, upd := fun a _ _ => a, comb := fun a _ => a,
    groups := [], finalizeErr := true }

end PolarsStream

namespace PolarsCore

/-- Model of an Arrow data type, restricted to physical types whose
`_try_from_arrow_unchecked_with_md` arm constructs the series directly
(from.rs:179, 220, 232: `Utf8View`, `Boolean`, `Int64`). -/
inductive ArrowDataType
  | int64
  | boolean
  | utf8view
deriving DecidableEq, Repr

/-- Model of an `ArrayRef` chunk: its Arrow data type plus a length. -/
structure ArrayRef where
  dtype : ArrowDataType
  len : Nat
deriving DecidableEq, Repr

/-- The two `PolarsError` variants raised by `check_types`. -/
inductive PolarsError
  | noData (msg : String)
  | computeError (msg : String)
deriving DecidableEq, Repr

/-- A constructed `Series` at the granularity this claim needs: name,
common dtype, and the backing chunks. -/
structure ASeries where
  name : String
  dtype : ArrowDataType
  chunks : List ArrayRef
deriving DecidableEq, Repr

/-- The loop of `check_types` (from.rs:697-703): every remaining chunk must
have the dtype of the first chunk. -/
def checkRemaining (dtype : ArrowDataType) : List ArrayRef → Except PolarsError ArrowDataType
  | [] => .ok dtype
  | c :: cs =>
    if c.dtype ≠ dtype then
      .error (.computeError "cannot create series from multiple arrays with different types")
    else
      checkRemaining dtype cs

/-- `check_types` (from.rs:689-705): fail with `NoData` on an empty chunk
vector, otherwise take the first chunk's dtype and require every other
chunk to match it. -/
def check_types : List ArrayRef → Except PolarsError ArrowDataType
  | [] => .error (.noData "expected at least one array-ref")
  | c :: rest => checkRemaining c.dtype rest

/-- `Series::_try_from_arrow_unchecked` (from.rs:160-166) restricted to the
modelled dtypes: each of the `Utf8View`/`Boolean`/`Int64` arms immediately
returns `Ok` with the series built from the chunks at the given dtype. -/
def tryFromArrowUnchecked (name : String) (chunks : List ArrayRef)
    (dtype : ArrowDataType) : Except PolarsError ASeries :=
  .ok { name := name, dtype := dtype, chunks := chunks }

/-- `impl TryFrom<(PlSmallStr, Vec<ArrayRef>)> for Series`
(from.rs:721-732): check the chunk types, then build the series at the
checked dtype. -/
def seriesTryFrom (name : String) (chunks : List ArrayRef) : Except PolarsError ASeries := do
  let dtype ← check_types chunks
  tryFromArrowUnchecked name chunks dtype

end PolarsCore

namespace PolarsStream

/-- A successful transition never produces an emptied `Source`: whenever
the transition block yields a `Source`, it still holds a batch. -/
theorem transitionStep_source_some {σ : Type} {schema : List Field} {st : ReduceState σ}
    {recv send : PortState} {df : Option DataFrame}
    (h : transitionStep schema st recv send = UResult.ok (ReduceState.Source df)) :
    ∃ d, df = some d := by
  dsimp only [transitionStep] at h
  split at h
  · cases h
  · split at h
    · split at h
      · split at h
        · split at h
          · cases h
            exact ⟨_, rfl⟩
          · cases h
        · cases h
        · cases h
      · cases h
    · cases h
    · cases h
      exact ⟨_, rfl⟩
    · cases h

/-- Inversion of a successful `updateState` call: the resulting state is
`Done` with both ports `Done`, a `Sink` with ports (`Ready`, `Blocked`),
or a `Source` still holding a batch, with ports (`Done`, `Ready`). -/
theorem updateState_ok_cases {σ : Type} {schema : List Field} {st st' : ReduceState σ}
    {recv send r' s' : PortState}
    (h : updateState schema st recv send = UResult.ok (st', r', s')) :
    (st' = ReduceState.Done ∧ r' = PortState.Done ∧ s' = PortState.Done) ∨
    ((∃ sels rs, st' = ReduceState.Sink sels rs) ∧ r' = PortState.Ready ∧ s' = PortState.Blocked) ∨
    ((∃ d, st' = ReduceState.Source (some d)) ∧ r' = PortState.Done ∧ s' = PortState.Ready) := by
  dsimp only [updateState] at h
  split at h
  case _ st2 heq =>
    split at h
    · cases h
      exact Or.inr (Or.inl ⟨⟨_, _, rfl⟩, rfl, rfl⟩)
    · cases h
      rcases transitionStep_source_some heq with ⟨d, rfl⟩
      exact Or.inr (Or.inr ⟨⟨d, rfl⟩, rfl, rfl⟩)
    · cases h
      exact Or.inl ⟨rfl, rfl, rfl⟩
  case _ => cases h
  case _ => cases h

/-- C2: the port states written back by `update_state` are exactly the
spec's function of the post-transition phase, and whenever the written
receive state is not `Done` the written send state is `Blocked` (full
barrier). -/
theorem claim_C2 {σ : Type} (schema : List Field) (st st' : ReduceState σ)
    (recv send r' s' : PortState)
    (h : updateState schema st recv send = UResult.ok (st', r', s')) :
    (r', s') = specPhasePorts st' ∧ (r' ≠ PortState.Done → s' = PortState.Blocked) := by
  rcases updateState_ok_cases h with ⟨h1, h2, h3⟩ | ⟨⟨sels, rs, h1⟩, h2, h3⟩ | ⟨⟨d, h1⟩, h2, h3⟩ <;>
    subst h1 <;> subst h2 <;> subst h3 <;> simp [specPhasePorts]

/-- Witness for C2 at a concrete `Sink` step. -/
theorem claim_C2_witness :
    (PortState.Ready, PortState.Blocked)
        = specPhasePorts (ReduceState.Sink ([] : List Unit) []) ∧
      (PortState.Ready ≠ PortState.Done → PortState.Blocked = PortState.Blocked) :=
  claim_C2 [] (ReduceState.Sink ([] : List Unit) []) (ReduceState.Sink [] [])
    PortState.Ready PortState.Ready PortState.Ready PortState.Blocked rfl

/-- C4: whenever the downstream send port is `Done`, `update_state`
transitions to `Done` unconditionally — no result batch is built — and
reports both ports `Done`, so upstream observes closure. -/
theorem claim_C4 {σ : Type} (schema : List Field) (st : ReduceState σ) (recv : PortState) :
    updateState schema st recv PortState.Done
      = UResult.ok (ReduceState.Done, PortState.Done, PortState.Done) := by
  have h : transitionStep schema st recv PortState.Done = UResult.ok ReduceState.Done := by
    dsimp only [transitionStep]
    rw [if_pos rfl]
  dsimp only [updateState]
  rw [h]

/-- C5: the source phase emits exactly one morsel, carrying the held
result batch with sequence number zero and a fresh source token, and
leaves the holder empty; once the holder is empty, the next `update_state`
reaches `Done` with both ports `Done`; and in `Done` no task — in
particular no second source task — is ever spawned (`unreachable!()`). -/
theorem claim_C5 {σ : Type} (schema : List Field) (d : DataFrame) (recv send : PortState) :
    spawnSource (some d)
        = UResult.ok (none, [{ df := d, seq := 0, sourceToken := SourceToken.new }]) ∧
      updateState (σ := σ) schema (ReduceState.Source none) recv send
        = UResult.ok (ReduceState.Done, PortState.Done, PortState.Done) ∧
      spawnKind (ReduceState.Done : ReduceState σ) = SpawnKind.unreachableCode := by
  refine ⟨rfl, ?_, rfl⟩
  have h : transitionStep (σ := σ) schema (ReduceState.Source none) recv send
      = UResult.ok ReduceState.Done := by
    dsimp only [transitionStep]
    by_cases hs : send = PortState.Done
    · rw [if_pos hs]
    · rw [if_neg hs]
  dsimp only [updateState]
  rw [h]

/-- Every column produced by the finalization loop is a single-row scalar
wrap, so it has height one. -/
theorem finalizeColumns_height {rs : List GReduction} {fs : List Field} {cols : List Column}
    (h : finalizeColumns rs fs = UResult.ok cols) : ∀ c ∈ cols, c.height = 1 := by
  induction rs generalizing fs cols with
  | nil =>
    cases fs <;> (cases h; simp)
  | cons r rs ih =>
    cases fs with
    | nil =>
      cases h
      simp
    | cons f fs =>
      dsimp only [finalizeColumns] at h
      split at h
      · cases h
      · split at h
        · cases h
        · split at h
          next cols' heq =>
            cases h
            intro c hc
            rcases List.mem_cons.mp hc with rfl | hc
            · rfl
            · exact ih heq c hc
          next e heq => cases h
          next m heq => cases h

/-- Assembling columns that all have height one never fails. -/
theorem dataFrameNew_of_unit_height {cols : List Column}
    (h : ∀ c ∈ cols, c.height = 1) : DataFrame.new cols = some cols := by
  cases cols with
  | nil => rfl
  | cons c cs =>
    dsimp only [DataFrame.new]
    rw [if_pos]
    simp only [List.all_eq_true, decide_eq_true_eq]
    intro c2 hc2
    rw [h c2 (List.mem_cons_of_mem _ hc2), h c (List.mem_cons_self _ _)]

/-- The `Sink`-with-upstream-`Done` case of `updateState`, expressed in
terms of the finalization loop's outcome. -/
theorem updateState_sink_done {σ : Type} {schema : List Field} {sels : List σ}
    {rs : List GReduction} {send : PortState} (hsend : send ≠ PortState.Done) :
    updateState schema (ReduceState.Sink sels rs) PortState.Done send =
      match finalizeColumns rs schema with
      | .ok cols =>
        match DataFrame.new cols with
        | some df => .ok (.Source (some df), .Done, .Ready)
        | none => .panicked "DataFrame::new unwrap"
      | .err e => .err e
      | .panicked m => .panicked m := by
  dsimp only [updateState, transitionStep]
  rw [if_neg hsend, if_pos rfl]
  generalize finalizeColumns rs schema = fc
  cases fc with
  | ok cols =>
    dsimp only
    generalize DataFrame.new cols = dfn
    cases dfn <;> rfl
  | err e => rfl
  | panicked m => rfl

/-- Success of the spec-side finalization pipeline implies the same
columns from the code-side finalization loop. -/
theorem specPipeline_finalizeColumns {rs : List GReduction} {fs : List Field}
    {cols : List Column}
    (h : (rs.zip fs).mapM (fun p => do
        let s ← ((p.1.resize 1).finalize).toOption
        let s2 ← (s.withName p.2.name).cast p.2.dtype
        pure (unitScalarFromSeries s2)) = some cols) :
    finalizeColumns rs fs = UResult.ok cols := by
  induction rs generalizing fs cols with
  | nil =>
    simp only [List.zip_nil_left, List.mapM_nil, pure, Option.some.injEq] at h
    subst h
    rfl
  | cons r rs ih =>
    cases fs with
    | nil =>
      simp only [List.zip_nil_right, List.mapM_nil, pure, Option.some.injEq] at h
      subst h
      rfl
    | cons f fs =>
      rw [List.zip_cons_cons, List.mapM_cons] at h
      dsimp only at h
      dsimp only [finalizeColumns]
      cases hfin : (r.resize 1).finalize with
      | error e =>
        simp [hfin, Except.toOption] at h
      | ok s =>
        cases hcast : (s.withName f.name).cast f.dtype with
        | none =>
          simp [hfin, hcast, Except.toOption] at h
        | some s2 =>
          simp only [hfin, hcast, Except.toOption, Option.some_bind, Option.bind_eq_bind,
            pure] at h
          rcases Option.bind_eq_some.mp h with ⟨cols', hrest, hcols⟩
          simp only [Option.some.injEq] at hcols
          subst hcols
          rw [ih hrest]
          simp only [hcast]

/-- C3: in `Sink`, with the downstream port not `Done` and the upstream
receive port `Done`, `update_state` finalizes exactly as the spec
describes — resize each reducer to one group, finalize, rename to the
schema field's name, cast to its declared type, wrap as a single-row
scalar column, assemble one batch — and transitions to
`Source(Some(batch))`. -/
theorem claim_C3 {σ : Type} (schema : List Field) (sels : List σ) (rs : List GReduction)
    (send : PortState) (df : DataFrame)
    (hsend : send ≠ PortState.Done)
    (h : specFinalizeBatch rs schema = some df) :
    updateState schema (ReduceState.Sink sels rs) PortState.Done send
      = UResult.ok (ReduceState.Source (some df), PortState.Done, PortState.Ready) := by
  dsimp only [specFinalizeBatch] at h
  rcases Option.bind_eq_some.mp h with ⟨cols, hmap, hnew⟩
  have hfc := specPipeline_finalizeColumns hmap
  have hunit := dataFrameNew_of_unit_height (finalizeColumns_height hfc)
  rw [hunit] at hnew
  cases hnew
  rw [updateState_sink_done hsend, hfc]
  simp only [hunit]

/-- Witness for C3: a single sum-like reduction over an empty input
finalizes to a one-row null batch. -/
theorem claim_C3_witness :
    updateState [{ name := "s", dtype := Dtype.dtInt }]
        (ReduceState.Sink ([] : List Unit) [sumReducer]) PortState.Done PortState.Ready
      = UResult.ok
          (ReduceState.Source
            (some [Column.scalar { name := "s", dtype := Dtype.dtInt, values := [RVal.null] }]),
           PortState.Done, PortState.Ready) :=
  claim_C3 _ _ _ _ _ (by decide) rfl

/-- A returned error value from the finalization loop always originates
from a reducer whose `finalize()` failed. -/
theorem finalizeColumns_err_of_finalizeErr {rs : List GReduction} {fs : List Field} {e : String}
    (h : finalizeColumns rs fs = UResult.err e) : ∃ r ∈ rs, r.finalizeErr = true := by
  induction rs generalizing fs with
  | nil => cases fs <;> cases h
  | cons r rs ih =>
    cases fs with
    | nil => cases h
    | cons f fs =>
      dsimp only [finalizeColumns] at h
      split at h
      next e' hfin =>
        refine ⟨r, List.mem_cons_self _ _, ?_⟩
        cases hb : r.finalizeErr with
        | true => rfl
        | false => simp [GReduction.finalize, GReduction.resize, hb] at hfin
      next s hfin =>
        split at h
        · cases h
        · split at h
          next cols heq => cases h
          next e'' heq =>
            cases h
            rcases ih heq with ⟨r2, hr2, hb⟩
            exact ⟨r2, List.mem_cons_of_mem _ hr2, hb⟩
          next m heq => cases h

/-- Counterexample to C7: a reducer finalizing to a non-numeric string
under a schema field declared as integer makes the finalization cast fail,
and `update_state` panics (the `.unwrap()` in reduce.rs:135) instead of
returning an error value. -/
theorem claim_C7_counterexample :
    updateState [{ name := "x", dtype := Dtype.dtInt }]
        (ReduceState.Sink ([] : List Unit) [badCastReducer]) PortState.Done PortState.Ready
      = UResult.panicked "cast unwrap" := by
  rfl

/-- C7 (amended): an `Err` from a reducer's `finalize()` is returned by
`update_state` as that single error value and no batch is emitted; a cast
failure instead panics (`unwrap`), as would an assembly failure — though
assembly cannot actually fail in this path because every finalized column
is a one-row scalar; and a returned error value always originates from a
reducer finalize failure. -/
theorem claim_C7_amended {σ : Type} (schema : List Field) (sels : List σ)
    (rs : List GReduction) (send : PortState) (hsend : send ≠ PortState.Done) :
    (∀ e, finalizeColumns rs schema = UResult.err e →
        updateState schema (ReduceState.Sink sels rs) PortState.Done send = UResult.err e) ∧
    (∀ m, finalizeColumns rs schema = UResult.panicked m →
        updateState schema (ReduceState.Sink sels rs) PortState.Done send
          = UResult.panicked m) ∧
    (∀ cols, finalizeColumns rs schema = UResult.ok cols →
        updateState schema (ReduceState.Sink sels rs) PortState.Done send
          = UResult.ok (ReduceState.Source (some cols), PortState.Done, PortState.Ready)) ∧
    (∀ e, finalizeColumns rs schema = UResult.err e → ∃ r ∈ rs, r.finalizeErr = true) := by
  refine ⟨?_, ?_, ?_, ?_⟩
  · intro e he
    rw [updateState_sink_done hsend, he]
  · intro m hm
    rw [updateState_sink_done hsend, hm]
  · intro cols hc
    rw [updateState_sink_done hsend, hc]
    simp only [dataFrameNew_of_unit_height (finalizeColumns_height hc)]
  · intro e he
    exact finalizeColumns_err_of_finalizeErr he

/-- Witness for the amended C7: a failing `finalize()` is surfaced as the
single error value. -/
theorem claim_C7_amended_witness :
    updateState [{ name := "x", dtype := Dtype.dtInt }]
        (ReduceState.Sink ([] : List Unit) [errFinalizeReducer]) PortState.Done PortState.Ready
      = UResult.err "reduction finalize failed" :=
  (claim_C7_amended [{ name := "x", dtype := Dtype.dtInt }] ([] : List Unit)
    [errFinalizeReducer] PortState.Ready (by decide)).1 _ rfl

/-- C9: `update_state` is idempotent when nothing external changes —
feeding back the state and port values produced by one successful call
reproduces exactly the same state and port values. -/
theorem claim_C9 {σ : Type} (schema : List Field) (st st' : ReduceState σ)
    (recv send r' s' : PortState)
    (h : updateState schema st recv send = UResult.ok (st', r', s')) :
    updateState schema st' r' s' = UResult.ok (st', r', s') := by
  rcases updateState_ok_cases h with ⟨h1, h2, h3⟩ | ⟨⟨sels, rs, h1⟩, h2, h3⟩ | ⟨⟨d, h1⟩, h2, h3⟩ <;>
    subst h1 <;> subst h2 <;> subst h3 <;> rfl

/-- Witness for C9 at a concrete `Sink` step. -/
theorem claim_C9_witness :
    updateState [] (ReduceState.Sink ([] : List Unit) []) PortState.Ready PortState.Blocked
      = UResult.ok (ReduceState.Sink [] [], PortState.Ready, PortState.Blocked) :=
  claim_C9 [] (ReduceState.Sink ([] : List Unit) []) (ReduceState.Sink [] [])
    PortState.Ready PortState.Ready PortState.Ready PortState.Blocked rfl

end PolarsStream

namespace PolarsCore

/-- A successful `checkRemaining` means every chunk in the remainder has
the reference dtype. -/
theorem checkRemaining_ok {d d' : ArrowDataType} {l : List ArrayRef}
    (h : checkRemaining d l = Except.ok d') : d' = d ∧ ∀ c ∈ l, c.dtype = d := by
  induction l with
  | nil =>
    cases h
    exact ⟨rfl, by simp⟩
  | cons c cs ih =>
    dsimp only [checkRemaining] at h
    split at h
    · cases h
    · next hne =>
      rcases ih h with ⟨rfl, hall⟩
      refine ⟨rfl, ?_⟩
      intro c2 hc2
      rcases List.mem_cons.mp hc2 with rfl | hc2
      · exact not_not.mp hne
      · exact hall c2 hc2

/-- Every chunk matching the reference dtype makes `checkRemaining`
succeed with that dtype. -/
theorem checkRemaining_ok_of_all {d : ArrowDataType} {l : List ArrayRef}
    (hall : ∀ c ∈ l, c.dtype = d) : checkRemaining d l = Except.ok d := by
  induction l with
  | nil => rfl
  | cons c cs ih =>
    dsimp only [checkRemaining]
    rw [if_neg (not_not.mpr (hall c (List.mem_cons_self _ _)))]
    exact ih fun c2 hc2 => hall c2 (List.mem_cons_of_mem _ hc2)

/-- A chunk with a dtype other than the reference dtype makes
`checkRemaining` fail with the compute error. -/
theorem checkRemaining_err {d : ArrowDataType} {l : List ArrayRef} {c : ArrayRef}
    (hc : c ∈ l) (hne : c.dtype ≠ d) :
    checkRemaining d l
      = Except.error (PolarsError.computeError
          "cannot create series from multiple arrays with different types") := by
  induction l with
  | nil => cases hc
  | cons c2 cs ih =>
    dsimp only [checkRemaining]
    rcases List.mem_cons.mp hc with rfl | hmem
    · rw [if_pos hne]
    · by_cases h2 : c2.dtype = d
      · rw [if_neg (not_not.mpr h2)]
        exact ih hmem
      · rw [if_pos h2]

/-- C10: `Series::try_from((name, chunks))` fails with the `NoData` error
on an empty chunk vector, fails with the `ComputeError` when two chunks
have different Arrow data types, and otherwise builds the series from the
first chunk's dtype, common to all chunks. -/
theorem claim_C10 (name : String) (chunks : List ArrayRef) :
    (chunks = [] →
        seriesTryFrom name chunks
          = Except.error (PolarsError.noData "expected at least one array-ref")) ∧
    (∀ c1 ∈ chunks, ∀ c2 ∈ chunks, c1.dtype ≠ c2.dtype →
        seriesTryFrom name chunks
          = Except.error (PolarsError.computeError
              "cannot create series from multiple arrays with different types")) ∧
    (∀ c rest, chunks = c :: rest → (∀ c2 ∈ chunks, c2.dtype = c.dtype) →
        seriesTryFrom name chunks
          = Except.ok { name := name, dtype := c.dtype, chunks := chunks }) := by
  refine ⟨?_, ?_, ?_⟩
  · rintro rfl
    rfl
  · intro c1 h1 c2 h2 hne
    cases chunks with
    | nil => cases h1
    | cons c0 rest =>
      have herr : check_types (c0 :: rest)
          = Except.error (PolarsError.computeError
              "cannot create series from multiple arrays with different types") := by
        dsimp only [check_types]
        by_cases h0 : c1.dtype = c0.dtype
        · have hne2 : c2.dtype ≠ c0.dtype := fun hh => hne (h0.trans hh.symm)
          rcases List.mem_cons.mp h2 with rfl | hmem
          · exact absurd rfl hne2
          · exact checkRemaining_err hmem hne2
        · rcases List.mem_cons.mp h1 with rfl | hmem
          · exact absurd rfl h0
          · exact checkRemaining_err hmem h0
      simp only [seriesTryFrom, herr]
      rfl
  · rintro c rest rfl hall
    have hok : check_types (c :: rest) = Except.ok c.dtype := by
      dsimp only [check_types]
      exact checkRemaining_ok_of_all fun c2 hc2 =>
        hall c2 (List.mem_cons_of_mem _ hc2)
    simp only [seriesTryFrom, hok]
    rfl

/-- Witness for C10: two chunks of different dtype are rejected. -/
theorem claim_C10_witness :
    seriesTryFrom "a" [{ dtype := ArrowDataType.int64, len := 1 },
        { dtype := ArrowDataType.boolean, len := 2 }]
      = Except.error (PolarsError.computeError
          "cannot create series from multiple arrays with different types") :=
  (claim_C10 "a" _).2.1 { dtype := ArrowDataType.int64, len := 1 } (by simp)
    { dtype := ArrowDataType.boolean, len := 2 } (by simp) (by decide)

end PolarsCore

namespace PolarsStream

/-- C8: if partition task `i` fails while all earlier partitions awaited
and merged successfully, the coordinating merge task — which awaits
partition tasks in fixed index order — propagates exactly that first
observed failure out of the sink phase, and the scheduler-level reaction
aborts: the node never advances to `Source` and no result batch is
emitted. -/
theorem claim_C8 {σ δ : Type} (evalE : σ → δ → Except String RVal)
    (updE : GReduction → RVal → Nat → Except String GReduction)
    (combE : GReduction → GReduction → Except String GReduction)
    (reductions : List GReduction) (sels : List σ)
    (parts : List (List (Morsel δ))) (i : Nat) (e : String) (acc : List GReduction)
    (hi : i < parts.length)
    (hok : mergeFoldE combE reductions
        ((parts.map (localSinkTaskE evalE updE reductions sels)).take i) = Except.ok acc)
    (herr : localSinkTaskE evalE updE reductions sels parts[i] = Except.error e) :
    sinkPhaseE evalE updE combE reductions sels parts = Except.error e ∧
      afterSinkTasks (ReduceState.Sink sels reductions)
          (sinkPhaseE evalE updE combE reductions sels parts)
        = ScheduleOutcome.aborted e := by
  have hilen : i < (parts.map (localSinkTaskE evalE updE reductions sels)).length := by
    simpa using hi
  have hmain : sinkPhaseE evalE updE combE reductions sels parts = Except.error e := by
    dsimp only [sinkPhaseE, mergeFoldE] at hok ⊢
    rw [← List.take_append_drop i (parts.map (localSinkTaskE evalE updE reductions sels)),
      List.foldlM_append, hok, List.drop_eq_getElem_cons hilen, List.getElem_map, herr]
    rfl
  exact ⟨hmain, by rw [hmain]; rfl⟩

/-- Witness for C8: a failing selector evaluation in the only partition
aborts the sink phase with that error. -/
theorem claim_C8_witness :
    sinkPhaseE
        (fun (_ : Unit) (_ : Nat) => (Except.error "selector evaluation failed" : Except String RVal))
        (fun r v s => Except.ok (r.updateGroup v 0 s))
        (fun a b => Except.ok (a.combineSubset b 0 0))
        [sumReducer] [()] [[{ df := 5, seq := 0, sourceToken := SourceToken.new }]]
      = Except.error "selector evaluation failed" :=
  (claim_C8
    (fun (_ : Unit) (_ : Nat) => (Except.error "selector evaluation failed" : Except String RVal))
    (fun r v s => Except.ok (r.updateGroup v 0 s))
    (fun a b => Except.ok (a.combineSubset b 0 0))
    [sumReducer] [()] [[{ df := 5, seq := 0, sourceToken := SourceToken.new }]]
    0 "selector evaluation failed" [sumReducer] (by decide) rfl rfl).1

end PolarsStream

namespace PolarsStream

/-- An empty reducer vector stays empty through the sink fold. -/
theorem foldl_sinkStep_nil {σ δ : Type} (eval : σ → δ → RVal) (sels : List σ)
    (ms : List (Morsel δ)) : ms.foldl (sinkStep eval sels) [] = [] := by
  induction ms with
  | nil => rfl
  | cons m ms ih =>
    rw [List.foldl_cons]
    exact ih

/-- The sink fold acts componentwise on the zipped reducer/selector
vectors. -/
theorem foldl_sinkStep_cons {σ δ : Type} (eval : σ → δ → RVal) (s : σ) (ss : List σ)
    (ms : List (Morsel δ)) (a : GReduction) (as : List GReduction) :
    ms.foldl (sinkStep eval (s :: ss)) (a :: as)
      = ms.foldl (fun x m => x.updateGroup (eval s m.df) 0 m.seq) a
          :: ms.foldl (sinkStep eval ss) as := by
  induction ms generalizing a as with
  | nil => rfl
  | cons m ms ih =>
    rw [List.foldl_cons, List.foldl_cons, List.foldl_cons]
    exact ih _ _

/-- A partition task over no reducers produces no reducers. -/
theorem localSinkTask_nil {σ δ : Type} (eval : σ → δ → RVal) (sels : List σ)
    (ms : List (Morsel δ)) : localSinkTask eval [] sels ms = [] :=
  foldl_sinkStep_nil eval sels ms

/-- A partition task acts componentwise on the reducer/selector vectors. -/
theorem localSinkTask_cons {σ δ : Type} (eval : σ → δ → RVal) (r : GReduction)
    (rs : List GReduction) (s : σ) (ss : List σ) (ms : List (Morsel δ)) :
    localSinkTask eval (r :: rs) (s :: ss) ms
      = localSinkTask1 eval r s ms :: localSinkTask eval rs ss ms := by
  dsimp only [localSinkTask, localSinkTask1, List.map_cons]
  exact foldl_sinkStep_cons eval s ss ms _ _

/-- An empty node-reducer vector stays empty through the merge fold. -/
theorem foldl_mergeStep_nil (locs : List (List GReduction)) :
    locs.foldl mergeStep [] = [] := by
  induction locs with
  | nil => rfl
  | cons l ls ih =>
    rw [List.foldl_cons]
    exact ih

/-- The merge fold acts componentwise on the zipped node/partition reducer
vectors. -/
theorem foldl_mergeStep_cons {α : Type} (xs : List α) (fh : α → GReduction)
    (ft : α → List GReduction) (a : GReduction) (as : List GReduction) :
    (xs.map (fun q => fh q :: ft q)).foldl mergeStep (a :: as)
      = (xs.map fh).foldl (fun x l => (x.resize 1).combineSubset l 0 0) a
          :: (xs.map ft).foldl mergeStep as := by
  induction xs generalizing a as with
  | nil => rfl
  | cons q qs ih =>
    rw [List.map_cons, List.foldl_cons, List.map_cons, List.foldl_cons, List.map_cons,
      List.foldl_cons]
    exact ih _ _

/-- The whole sink phase over no reducers produces no reducers. -/
theorem sinkPhase_nil {σ δ : Type} (eval : σ → δ → RVal) (sels : List σ)
    (parts : List (List (Morsel δ))) : sinkPhase eval [] sels parts = [] := by
  dsimp only [sinkPhase]
  have h : parts.map (localSinkTask eval [] sels) = parts.map (fun _ => []) :=
    List.map_congr_left fun p _ => localSinkTask_nil eval sels p
  rw [h]
  exact foldl_mergeStep_nil _

/-- The whole sink phase acts componentwise on the reducer/selector
vectors. -/
theorem sinkPhase_cons {σ δ : Type} (eval : σ → δ → RVal) (r : GReduction)
    (rs : List GReduction) (s : σ) (ss : List σ) (parts : List (List (Morsel δ))) :
    sinkPhase eval (r :: rs) (s :: ss) parts
      = sinkPhase1 eval r s parts :: sinkPhase eval rs ss parts := by
  dsimp only [sinkPhase, sinkPhase1]
  have hmap : parts.map (localSinkTask eval (r :: rs) (s :: ss))
      = parts.map (fun p => localSinkTask1 eval r s p :: localSinkTask eval rs ss p) :=
    List.map_congr_left fun p _ => localSinkTask_cons eval r rs s ss p
  rw [hmap]
  exact foldl_mergeStep_cons parts (fun p => localSinkTask1 eval r s p)
    (fun p => localSinkTask eval rs ss p) r rs

/-- A fresh local reducer holds exactly one group, in the empty state. -/
theorem newLocal_groups (r : GReduction) : r.newLocal = { r with groups := [r.ident] } := rfl

/-- Iterating `update_group` on a one-group reducer folds the update
function over the single accumulator value. -/
theorem foldl_updateGroup_singleton {σ δ : Type} (eval : σ → δ → RVal) (sel : σ)
    (r : GReduction) (ms : List (Morsel δ)) (g : RVal) :
    ms.foldl (fun a m => a.updateGroup (eval sel m.df) 0 m.seq) { r with groups := [g] }
      = { r with groups := [ms.foldl (fun a m => r.upd a (eval sel m.df) m.seq) g] } := by
  induction ms generalizing g with
  | nil => rfl
  | cons m ms ih =>
    rw [List.foldl_cons, List.foldl_cons]
    exact ih _

/-- Closed form of one partition task on one reducer: a single group
holding the fold of the update function over the partition's morsels. -/
theorem localSinkTask1_eq {σ δ : Type} (eval : σ → δ → RVal) (r : GReduction) (sel : σ)
    (ms : List (Morsel δ)) :
    localSinkTask1 eval r sel ms
      = { r with groups := [ms.foldl (fun a m => r.upd a (eval sel m.df) m.seq) r.ident] } := by
  dsimp only [localSinkTask1]
  rw [newLocal_groups]
  exact foldl_updateGroup_singleton eval sel r ms r.ident

/-- Closed form of the merge fold over one-group partition results. -/
theorem foldl_combineSub_singleton (r : GReduction) (xs : List RVal) (g : RVal) :
    (xs.map (fun x => ({ r with groups := [x] } : GReduction))).foldl
        (fun a loc => (a.resize 1).combineSubset loc 0 0) { r with groups := [g] }
      = { r with groups := [xs.foldl r.comb g] } := by
  induction xs generalizing g with
  | nil => rfl
  | cons x xs ih =>
    rw [List.map_cons, List.foldl_cons, List.foldl_cons]
    exact ih _

/-- Closed form of the single-reducer sink phase: the node group holds the
combine-fold, over partitions in index order, of the per-partition update
folds. -/
theorem sinkPhase1_eq {σ δ : Type} (eval : σ → δ → RVal) (r : GReduction) (sel : σ)
    (parts : List (List (Morsel δ))) (hempty : r.groups = []) (hne : parts ≠ []) :
    sinkPhase1 eval r sel parts
      = { r with groups := [(parts.map (fun p =>
          p.foldl (fun a m => r.upd a (eval sel m.df) m.seq) r.ident)).foldl r.comb r.ident] } := by
  cases parts with
  | nil => exact absurd rfl hne
  | cons q qs =>
    dsimp only [sinkPhase1]
    rw [List.map_cons, List.foldl_cons]
    have h1 : r.resize 1 = { r with groups := [r.ident] } := by
      dsimp only [GReduction.resize]
      rw [hempty]
      rfl
    have hfirst : (r.resize 1).combineSubset (localSinkTask1 eval r sel q) 0 0
        = { r with groups :=
            [r.comb r.ident (q.foldl (fun a m => r.upd a (eval sel m.df) m.seq) r.ident)] } := by
      rw [h1, localSinkTask1_eq]
      rfl
    have hlocals : qs.map (localSinkTask1 eval r sel)
        = (qs.map (fun p => p.foldl (fun a m => r.upd a (eval sel m.df) m.seq) r.ident)).map
            (fun x => ({ r with groups := [x] } : GReduction)) := by
      rw [List.map_map]
      exact List.map_congr_left fun p _ => localSinkTask1_eq eval r sel p
    rw [hfirst, hlocals, foldl_combineSub_singleton, List.map_cons, List.foldl_cons]

end PolarsStream

namespace PolarsStream

section CombAlgebra

variable {comb : RVal → RVal → RVal} {ident : RVal}

/-- Pull the left operand of an associative fold out front. -/
theorem foldl_comb_assoc (hassoc : ∀ a b c, comb (comb a b) c = comb a (comb b c))
    (l : List RVal) (a b : RVal) :
    l.foldl comb (comb a b) = comb a (l.foldl comb b) := by
  induction l generalizing b with
  | nil => rfl
  | cons x xs ih =>
    rw [List.foldl_cons, List.foldl_cons, hassoc, ih]

/-- Combining with a fold from the identity equals folding from the
combined value. -/
theorem comb_foldl_eq (hassoc : ∀ a b c, comb (comb a b) c = comb a (comb b c))
    (hcomm : ∀ a b, comb a b = comb b a) (hid : ∀ a, comb ident a = a)
    (l : List RVal) (b : RVal) :
    comb b (l.foldl comb ident) = l.foldl comb b := by
  have hrid : comb b ident = b := (hcomm b ident).trans (hid b)
  rw [← foldl_comb_assoc hassoc l b ident, hrid]

/-- Folding the per-sublist folds equals folding the flattened list. -/
theorem foldl_comb_flatten (hassoc : ∀ a b c, comb (comb a b) c = comb a (comb b c))
    (hcomm : ∀ a b, comb a b = comb b a) (hid : ∀ a, comb ident a = a)
    (ps : List (List RVal)) (b : RVal) :
    (ps.map (fun p => p.foldl comb ident)).foldl comb b = ps.flatten.foldl comb b := by
  induction ps generalizing b with
  | nil => rfl
  | cons p ps ih =>
    rw [List.map_cons, List.foldl_cons, comb_foldl_eq hassoc hcomm hid, ih,
      List.flatten_cons, List.foldl_append]

/-- Folds of a commutative, associative combine are invariant under
permutation of the folded list. -/
theorem foldl_comb_perm (hassoc : ∀ a b c, comb (comb a b) c = comb a (comb b c))
    (hcomm : ∀ a b, comb a b = comb b a) {l1 l2 : List RVal} (hp : l1.Perm l2) (b : RVal) :
    l1.foldl comb b = l2.foldl comb b :=
  hp.foldl_eq' (fun x _ y _ z => by rw [hassoc, hassoc, hcomm x y]) b

end CombAlgebra

/-- Rewriting the per-morsel update fold through the update-factorization
hypothesis: updating is combining with the value's singleton reduction. -/
theorem foldl_upd_as_comb {σ δ : Type} (eval : σ → δ → RVal) (r : GReduction) (sel : σ)
    (hupd : ∀ a v s, r.upd a v s = r.comb a (r.upd r.ident v 0))
    (p : List (Morsel δ)) (g : RVal) :
    p.foldl (fun a m => r.upd a (eval sel m.df) m.seq) g
      = (p.map (fun m => r.upd r.ident (eval sel m.df) 0)).foldl r.comb g := by
  rw [List.foldl_map]
  induction p generalizing g with
  | nil => rfl
  | cons m p ih =>
    rw [List.foldl_cons, List.foldl_cons, hupd]
    exact ih _

/-- Single-reducer form of C1: for an associative/commutative reduction
with a unit empty state whose update factors through combine, the sink
phase over any partitioning of the morsels (any number ≥ 1 of partitions,
morsels distributed arbitrarily) equals the sink phase of a single
partition holding all morsels in order. -/
theorem sinkPhase1_perm {σ δ : Type} (eval : σ → δ → RVal) (r : GReduction) (sel : σ)
    {parts : List (List (Morsel δ))} {all : List (Morsel δ)}
    (hempty : r.groups = [])
    (hassoc : ∀ a b c, r.comb (r.comb a b) c = r.comb a (r.comb b c))
    (hcomm : ∀ a b, r.comb a b = r.comb b a)
    (hid : ∀ a, r.comb r.ident a = a)
    (hupd : ∀ a v s, r.upd a v s = r.comb a (r.upd r.ident v 0))
    (hperm : parts.flatten.Perm all)
    (hne : parts ≠ []) :
    sinkPhase1 eval r sel parts = sinkPhase1 eval r sel [all] := by
  rw [sinkPhase1_eq eval r sel parts hempty hne,
    sinkPhase1_eq eval r sel [all] hempty (by simp)]
  have hval : ∀ p : List (Morsel δ),
      p.foldl (fun a m => r.upd a (eval sel m.df) m.seq) r.ident
        = (p.map (fun m => r.upd r.ident (eval sel m.df) 0)).foldl r.comb r.ident :=
    fun p => foldl_upd_as_comb eval r sel hupd p r.ident
  have hmapL : parts.map (fun p => p.foldl (fun a m => r.upd a (eval sel m.df) m.seq) r.ident)
      = (parts.map (List.map (fun m => r.upd r.ident (eval sel m.df) 0))).map
          (fun l => l.foldl r.comb r.ident) := by
    rw [List.map_map]
    exact List.map_congr_left fun p _ => hval p
  have hL : (parts.map (fun p =>
        p.foldl (fun a m => r.upd a (eval sel m.df) m.seq) r.ident)).foldl r.comb r.ident
      = ((all.map (fun m => r.upd r.ident (eval sel m.df) 0))).foldl r.comb r.ident := by
    rw [hmapL, foldl_comb_flatten hassoc hcomm hid, ← List.map_flatten]
    exact foldl_comb_perm hassoc hcomm (hperm.map _) r.ident
  have hR : ([all].map (fun p =>
        p.foldl (fun a m => r.upd a (eval sel m.df) m.seq) r.ident)).foldl r.comb r.ident
      = ((all.map (fun m => r.upd r.ident (eval sel m.df) 0))).foldl r.comb r.ident := by
    rw [List.map_cons, List.map_nil, List.foldl_cons, List.foldl_nil, hid, hval]
  rw [hL, hR]

end PolarsStream

namespace PolarsStream

/-- Vector form of C1's partition invariance, by componentwise
decomposition of the sink phase. -/
theorem sinkPhase_perm {σ δ : Type} (eval : σ → δ → RVal) (reductions : List GReduction)
    (sels : List σ) {parts : List (List (Morsel δ))} {all : List (Morsel δ)}
    (hlen : sels.length = reductions.length)
    (hr : ∀ r ∈ reductions, r.groups = []
      ∧ (∀ a b c, r.comb (r.comb a b) c = r.comb a (r.comb b c))
      ∧ (∀ a b, r.comb a b = r.comb b a)
      ∧ (∀ a, r.comb r.ident a = a)
      ∧ (∀ a v s, r.upd a v s = r.comb a (r.upd r.ident v 0)))
    (hperm : parts.flatten.Perm all) (hne : parts ≠ []) :
    sinkPhase eval reductions sels parts = sinkPhase eval reductions sels [all] := by
  induction reductions generalizing sels with
  | nil => rw [sinkPhase_nil, sinkPhase_nil]
  | cons r rs ih =>
    cases sels with
    | nil => simp at hlen
    | cons s ss =>
      obtain ⟨h1, h2, h3, h4, h5⟩ := hr r (List.mem_cons_self _ _)
      have hh := sinkPhase1_perm eval r s h1 h2 h3 h4 h5 hperm hne
      have ht := ih ss (by simpa using hlen)
        (fun r2 hr2 => hr r2 (List.mem_cons_of_mem _ hr2))
      rw [sinkPhase_cons, sinkPhase_cons, hh, ht]

/-- C1: for reductions that are associative and commutative under combine,
with a unit empty state and an update that factors through combine, the
sink phase's result — per-partition local reducers updated at group 0,
merged by a sequential fold in fixed partition index order — is the same
for every distribution of the morsels over any number ≥ 1 of partitions as
for a single partition holding all morsels in the original order; hence
the finalized batch `update_state` builds from it is also the same,
independent of partition completion order. -/
theorem claim_C1 {σ δ : Type} (eval : σ → δ → RVal) (schema : List Field)
    (reductions : List GReduction) (sels : List σ)
    (parts : List (List (Morsel δ))) (all : List (Morsel δ)) (send : PortState)
    (hlen : sels.length = reductions.length)
    (hr : ∀ r ∈ reductions, r.groups = []
      ∧ (∀ a b c, r.comb (r.comb a b) c = r.comb a (r.comb b c))
      ∧ (∀ a b, r.comb a b = r.comb b a)
      ∧ (∀ a, r.comb r.ident a = a)
      ∧ (∀ a v s, r.upd a v s = r.comb a (r.upd r.ident v 0)))
    (hperm : parts.flatten.Perm all)
    (hk : 1 ≤ parts.length) :
    sinkPhase eval reductions sels parts = sinkPhase eval reductions sels [all]
    ∧ updateState schema (ReduceState.Sink sels (sinkPhase eval reductions sels parts))
        PortState.Done send
      = updateState schema (ReduceState.Sink sels (sinkPhase eval reductions sels [all]))
        PortState.Done send := by
  have hne : parts ≠ [] := by
    intro h
    rw [h] at hk
    exact absurd hk (by simp)
  have hmain := sinkPhase_perm eval reductions sels hlen hr hperm hne
  exact ⟨hmain, by rw [hmain]⟩

/-- The witness combine is commutative. -/
theorem combW_comm (a b : RVal) : combW a b = combW b a := by
  cases a <;> cases b <;> simp [combW, Int.add_comm]

/-- The witness combine is associative. -/
theorem combW_assoc (a b c : RVal) : combW (combW a b) c = combW a (combW b c) := by
  cases a <;> cases b <;> cases c <;> simp [combW, Int.add_assoc]

/-- `RVal.null` is a left identity for the witness combine. -/
theorem combW_null_left (a : RVal) : combW RVal.null a = a := by
  cases a <;> rfl

/-- Witness for C1: summing `1` and `2` split over two partitions equals
summing them in one partition. -/
theorem claim_C1_witness :
    sinkPhase (fun (_ : Unit) (d : Nat) => RVal.int (d : Int)) [sumReducer] [()]
        [[{ df := 1, seq := 0, sourceToken := SourceToken.new }],
         [{ df := 2, seq := 1, sourceToken := SourceToken.new }]]
      = sinkPhase (fun (_ : Unit) (d : Nat) => RVal.int (d : Int)) [sumReducer] [()]
        [[{ df := 1, seq := 0, sourceToken := SourceToken.new },
          { df := 2, seq := 1, sourceToken := SourceToken.new }]] :=
  (claim_C1 (fun (_ : Unit) (d : Nat) => RVal.int (d : Int)) [] [sumReducer] [()]
    [[{ df := 1, seq := 0, sourceToken := SourceToken.new }],
     [{ df := 2, seq := 1, sourceToken := SourceToken.new }]]
    [{ df := 1, seq := 0, sourceToken := SourceToken.new },
     { df := 2, seq := 1, sourceToken := SourceToken.new }] PortState.Ready rfl
    (fun r hrr => by
      obtain rfl := List.mem_singleton.mp hrr
      refine ⟨rfl, combW_assoc, combW_comm, combW_null_left, fun a v s => ?_⟩
      show combW a v = combW a (combW RVal.null v)
      rw [combW_null_left])
    (List.Perm.refl _) (by decide)).1

end PolarsStream

namespace PolarsStream

/-- Folding the combine over replicated identity values yields the
identity, provided the reduction's empty state is idempotent under
combine. -/
theorem foldl_comb_replicate {comb : RVal → RVal → RVal} {ident : RVal}
    (hii : comb ident ident = ident) (k : Nat) :
    (List.replicate k ident).foldl comb ident = ident := by
  induction k with
  | zero => rfl
  | succ k ih =>
    rw [List.replicate_succ, List.foldl_cons, hii]
    exact ih

/-- Single-reducer sink phase over `k ≥ 1` partitions that all receive
zero morsels: the node reducer holds exactly one group in the reduction's
empty state. -/
theorem sinkPhase1_empty_input {σ δ : Type} (eval : σ → δ → RVal) (r : GReduction) (sel : σ)
    (hempty : r.groups = []) (hii : r.comb r.ident r.ident = r.ident)
    (k : Nat) (hk : 1 ≤ k) :
    sinkPhase1 eval r sel (List.replicate k ([] : List (Morsel δ)))
      = { r with groups := [r.ident] } := by
  have hne : List.replicate k ([] : List (Morsel δ)) ≠ [] := by
    intro h
    have h2 := congrArg List.length h
    simp at h2
    omega
  rw [sinkPhase1_eq eval r sel _ hempty hne]
  have hmap : (List.replicate k ([] : List (Morsel δ))).map
      (fun p => p.foldl (fun a m => r.upd a (eval sel m.df) m.seq) r.ident)
      = List.replicate k r.ident := List.map_replicate ..
  rw [hmap, foldl_comb_replicate hii k]

/-- Vector form: the whole sink phase over `k ≥ 1` partitions with zero
morsels leaves every node reducer with one empty-state group. -/
theorem sinkPhase_empty_input {σ δ : Type} (eval : σ → δ → RVal)
    (reductions : List GReduction) (sels : List σ) (k : Nat)
    (hlen : sels.length = reductions.length) (hk : 1 ≤ k)
    (hr : ∀ r ∈ reductions, r.groups = [] ∧ r.comb r.ident r.ident = r.ident) :
    sinkPhase eval reductions sels (List.replicate k ([] : List (Morsel δ)))
      = reductions.map (fun r => { r with groups := [r.ident] }) := by
  induction reductions generalizing sels with
  | nil =>
    rw [sinkPhase_nil]
    rfl
  | cons r rs ih =>
    cases sels with
    | nil => simp at hlen
    | cons s ss =>
      obtain ⟨h1, h2⟩ := hr r (List.mem_cons_self _ _)
      rw [sinkPhase_cons, sinkPhase1_empty_input eval r s h1 h2 k hk,
        ih ss (by simpa using hlen) (fun r2 hr2 => hr r2 (List.mem_cons_of_mem _ hr2)),
        List.map_cons]

/-- Finalizing reducers that each hold one empty-state group yields the
one-row batch of identity values, renamed and typed by the schema. -/
theorem finalizeColumns_ident (reductions : List GReduction) (schema : List Field)
    (hfin : ∀ r ∈ reductions, r.finalizeErr = false)
    (hcast : ∀ p ∈ reductions.zip schema, castVal p.1.ident p.2.dtype = some p.1.ident) :
    finalizeColumns (reductions.map (fun r => { r with groups := [r.ident] })) schema
      = UResult.ok ((reductions.zip schema).map (fun p =>
          Column.scalar { name := p.2.name, dtype := p.2.dtype, values := [p.1.ident] })) := by
  induction reductions generalizing schema with
  | nil => cases schema <;> rfl
  | cons r rs ih =>
    cases schema with
    | nil => rfl
    | cons f fs =>
      rw [List.map_cons]
      dsimp only [finalizeColumns]
      have hfe : r.finalizeErr = false := hfin r (List.mem_cons_self _ _)
      have hfinal : (({ r with groups := [r.ident] } : GReduction).resize 1).finalize
          = Except.ok { name := "", dtype := r.dtype, values := [r.ident] } := by
        dsimp only [GReduction.resize, GReduction.finalize]
        simp [hfe]
      have hc : castVal r.ident f.dtype = some r.ident :=
        hcast (r, f) (by rw [List.zip_cons_cons]; exact List.mem_cons_self _ _)
      have hmapM : ([r.ident].mapM fun v => castVal v f.dtype) = some [r.ident] := by
        rw [List.mapM_cons, List.mapM_nil, hc]
        rfl
      have hcasteq : (({ name := "", dtype := r.dtype, values := [r.ident] } : Series).withName
            f.name).cast f.dtype
          = some { name := f.name, dtype := f.dtype, values := [r.ident] } := by
        dsimp only [Series.withName, Series.cast]
        rw [hmapM]
        rfl
      have hrest := ih fs (fun r2 hr2 => hfin r2 (List.mem_cons_of_mem _ hr2))
        (fun p hp => hcast p (by rw [List.zip_cons_cons]; exact List.mem_cons_of_mem _ hp))
      simp only [hfinal, hcasteq, hrest, List.zip_cons_cons, List.map_cons]
      rfl

/-- C6: with zero morsels received on every one of `k ≥ 1` partitions
before upstream closes, finalization still runs and produces a one-row
result batch holding each reduction's empty-state (identity) value, cast
and named per the schema — an `ok` outcome, not an error. -/
theorem claim_C6 {σ δ : Type} (eval : σ → δ → RVal) (reductions : List GReduction)
    (sels : List σ) (schema : List Field) (k : Nat) (send : PortState)
    (hlen : sels.length = reductions.length) (hk : 1 ≤ k)
    (hr : ∀ r ∈ reductions, r.groups = [] ∧ r.comb r.ident r.ident = r.ident
      ∧ r.finalizeErr = false)
    (hcast : ∀ p ∈ reductions.zip schema, castVal p.1.ident p.2.dtype = some p.1.ident)
    (hsend : send ≠ PortState.Done) :
    updateState schema
        (ReduceState.Sink sels
          (sinkPhase eval reductions sels (List.replicate k ([] : List (Morsel δ)))))
        PortState.Done send
      = UResult.ok (ReduceState.Source (some ((reductions.zip schema).map fun p =>
          Column.scalar { name := p.2.name, dtype := p.2.dtype, values := [p.1.ident] })),
        PortState.Done, PortState.Ready) := by
  rw [sinkPhase_empty_input eval reductions sels k hlen hk
    (fun r hrr => ⟨(hr r hrr).1, (hr r hrr).2.1⟩)]
  have hfc := finalizeColumns_ident reductions schema (fun r hrr => (hr r hrr).2.2) hcast
  rw [updateState_sink_done hsend, hfc]
  simp only [dataFrameNew_of_unit_height (finalizeColumns_height hfc)]

/-- Witness for C6: a sum-like reduction over two empty partitions
finalizes to a one-row null batch without error. -/
theorem claim_C6_witness :
    updateState [{ name := "s", dtype := Dtype.dtInt }]
        (ReduceState.Sink [()]
          (sinkPhase (fun (_ : Unit) (d : Nat) => RVal.int (d : Int)) [sumReducer] [()]
            (List.replicate 2 ([] : List (Morsel Nat)))))
        PortState.Done PortState.Ready
      = UResult.ok (ReduceState.Source (some [Column.scalar
            { name := "s", dtype := Dtype.dtInt, values := [RVal.null] }]),
          PortState.Done, PortState.Ready) :=
  claim_C6 (fun (_ : Unit) (d : Nat) => RVal.int (d : Int)) [sumReducer] [()]
    [{ name := "s", dtype := Dtype.dtInt }] 2 PortState.Ready rfl (by decide)
    (fun r hrr => by
      obtain rfl := List.mem_singleton.mp hrr
      exact ⟨rfl, rfl, rfl⟩)
    (fun p hp => by
      obtain rfl := List.mem_singleton.mp hp
      rfl)
    (by decide)

end PolarsStream
